import Mathlib

/-!
Verification of the reactive annotation-session state of the
`reflex_railway_deployment` application
(`src/reflex_railway_deployment/state.py`, class `State`).

The state holds four fields mutated only by the handlers
`set_video_url`, `update_progress` and `set_fps`, plus a derived
read `current_frame`.  Python floats are modelled as rationals,
Python `int` as `Int`.  The two standard-library functions the
handlers rely on — `int(str)` and `urllib.parse.urlparse` — are
embedded below from their CPython semantics, restricted to ASCII
input (no claim touches non-ASCII numerals or hosts): `int`
accepts surrounding whitespace, an optional sign, and digits with
single interior underscores; `urlparse` splits scheme / netloc /
path / query / fragment (the params split on `;` and the
netloc normalisation checks are omitted — no claim involves them;
the mismatched-bracket `ValueError` is kept since `validate_video_url`
catches it).
-/

namespace VideoState

/-- Whitespace characters stripped by Python `int(str)`
(`str.strip` default class). -/
def isPySpace (c : Char) : Bool :=
  c = ' ' || c = '\t' || c = '\n' || c = '\x0d' || c = '\x0b' || c = '\x0c'

/-- Strip leading and trailing Python whitespace from a character list. -/
def stripPy (l : List Char) : List Char :=
  ((l.dropWhile isPySpace).reverse.dropWhile isPySpace).reverse

/-- Numeric value of an ASCII digit character. -/
def digitVal (c : Char) : Nat := c.toNat - 48

/-- Digit run of CPython's integer literal grammar: digits with single
interior underscores, consuming the whole list.  `lastUnd` records
whether the previously consumed character was an underscore (an
underscore may neither follow another underscore nor end the run). -/
def digitsLoop (acc : Nat) (lastUnd : Bool) : List Char → Option Nat
  | [] => if lastUnd then none else some acc
  | c :: rest =>
    if c = '_' then
      if lastUnd then none else digitsLoop acc true rest
    else if c.isDigit then
      digitsLoop (acc * 10 + digitVal c) false rest
    else none

/-- Parse a nonempty unsigned digit run (with underscores) covering the
entire list; the first character must be a digit. -/
def parseDigitsU : List Char → Option Nat
  | [] => none
  | c :: rest => if c.isDigit then digitsLoop (digitVal c) false rest else none

/-- Model of CPython `int(value)` on a `str`: strip whitespace, then an
optional sign followed by an underscore-separated digit run.
`none` models `ValueError`. -/
def pythonIntParse (s : String) : Option Int :=
  match stripPy s.data with
  | [] => none
  | c :: rest =>
    if c = '+' then (parseDigitsU rest).map Int.ofNat
    else if c = '-' then (parseDigitsU rest).map (fun n => -(n : Int))
    else (parseDigitsU (c :: rest)).map Int.ofNat

/-- The app state: the four fields of `State` in
`src/reflex_railway_deployment/state.py` that the video handlers touch.
`current_time` (a Python float) is modelled as a rational. -/
structure State where
  video_url : String
  video_error : String
  current_time : ℚ
  fps : Int
  deriving Repr, DecidableEq

/-- Field defaults of `State`: `video_url = ""`, `video_error = ""`,
`current_time = 0`, `fps = 60`. -/
def initialState : State :=
  { video_url := "", video_error := "", current_time := 0, fps := 60 }

/-- Argument passed to `update_progress`.  `mapWith t` is a dict carrying
a numeric `playedSeconds` field of value `t`; `mapWithout` is a dict
lacking the key (the subscript raises `KeyError`, whose `str` is the
quoted key); `notMap msg` is a non-dict argument (the subscript raises
`TypeError` with message `msg`). -/
inductive Progress where
  | mapWith (t : ℚ)
  | mapWithout
  | notMap (msg : String)
  deriving Repr, DecidableEq

/-- `State.update_progress`: `self.current_time = progress["playedSeconds"]`
inside `try/except (KeyError, TypeError)`, the handler setting
`self.video_error` to the formatted exception. -/
def update_progress (st : State) (p : Progress) : State :=
  match p with
  | .mapWith t => { st with current_time := t }
  | .mapWithout =>
      { st with video_error :=
          "Error updating video progress: " ++ "'playedSeconds'" }
  | .notMap msg =>
      { st with video_error := "Error updating video progress: " ++ msg }

/-- `State.set_fps`: `fps = int(value)` inside `try/except ValueError`;
non-positive values are rejected with an error, positive values are
stored and the error cleared. -/
def set_fps (st : State) (value : String) : State :=
  match pythonIntParse value with
  | none => { st with video_error := "FPS must be a valid number" }
  | some n =>
    if n ≤ 0 then { st with video_error := "FPS must be greater than 0" }
    else { st with fps := n, video_error := "" }

/-- Characters CPython's URL scheme may contain
(`scheme_chars` in `urllib.parse`). -/
def schemeChar (c : Char) : Bool :=
  c.isAlpha || c.isDigit || c = '+' || c = '-' || c = '.'

/-- Split a character list at the first occurrence of `ch`: `none` when
`ch` does not occur, otherwise the parts before and after it. -/
def splitFirst (ch : Char) (l : List Char) : Option (List Char × List Char) :=
  match l.dropWhile (fun c => c ≠ ch) with
  | [] => none
  | _ :: rest => some (l.takeWhile (fun c => c ≠ ch), rest)

/-- Result of `urllib.parse.urlparse` restricted to the components the
application reads (the params component is not split off the path). -/
structure UrlParts where
  scheme : String
  netloc : String
  path : String
  query : String
  fragment : String
  deriving Repr, DecidableEq

/-- Character terminating the netloc in CPython's `_splitnetloc`. -/
def netlocEnd (c : Char) : Bool := c = '/' || c = '?' || c = '#'

/-- Model of `urllib.parse.urlparse(url)` (default empty scheme,
fragments allowed): a scheme is recognised before the first `:` when
nonempty, starting with an ASCII letter and made of `schemeChar`s, and
is lowercased; a netloc follows a leading `//` up to `/`, `?` or `#`
and a mismatched `[`/`]` raises `ValueError("Invalid IPv6 URL")`
(modelled as `Except.error`); the fragment is split at the first `#`,
then the query at the first `?`. -/
def urlparse (url : String) : Except String UrlParts :=
  let l := url.data
  let (scheme, rest) :=
    match splitFirst ':' l with
    | some (pre, post) =>
      match pre with
      | [] => (([] : List Char), l)
      | c :: _ =>
        if c.isAlpha && pre.all schemeChar then (pre.map Char.toLower, post)
        else (([] : List Char), l)
    | none => (([] : List Char), l)
  match rest with
  | '/' :: '/' :: r2 =>
    let netloc := r2.takeWhile (fun c => !netlocEnd c)
    let after := r2.dropWhile (fun c => !netlocEnd c)
    if (netloc.contains '[' && !netloc.contains ']')
        || (netloc.contains ']' && !netloc.contains '[') then
      Except.error "Invalid IPv6 URL"
    else
      let (preFrag, fragment) :=
        match splitFirst '#' after with
        | some (p, f) => (p, f)
        | none => (after, [])
      let (path, query) :=
        match splitFirst '?' preFrag with
        | some (p, q) => (p, q)
        | none => (preFrag, [])
      Except.ok ⟨⟨scheme⟩, ⟨netloc⟩, ⟨path⟩, ⟨query⟩, ⟨fragment⟩⟩
  | _ =>
    let (preFrag, fragment) :=
      match splitFirst '#' rest with
      | some (p, f) => (p, f)
      | none => (rest, [])
    let (path, query) :=
      match splitFirst '?' preFrag with
      | some (p, q) => (p, q)
      | none => (preFrag, [])
    Except.ok ⟨⟨scheme⟩, "", ⟨path⟩, ⟨query⟩, ⟨fragment⟩⟩

/-- The extension whitelist `video_extensions` of `validate_video_url`. -/
def video_extensions : List String := [".mp4", ".webm", ".ogg", ".mov"]

/-- Python `s.lower()` over the characters of `s` (ASCII case mapping). -/
def lowerData (s : String) : List Char := s.data.map Char.toLower

/-- The check `any(url.lower().endswith(ext) for ext in video_extensions)`:
a case-insensitive suffix match against the whole string. -/
def hasVideoExt (s : String) : Bool :=
  video_extensions.any (fun ext => ext.data.isSuffixOf (lowerData s))

/-- `State.validate_video_url`: returns the Python method's boolean
result together with the updated state (the method mutates only
`video_error`).  The surrounding `try/except Exception` catches the
`ValueError` that `urlparse` may raise. -/
def validate_video_url (st : State) (url : String) : Bool × State :=
  if url = "" then
    (false, { st with video_error := "Please enter a video URL" })
  else
    match urlparse url with
    | .error e =>
      (false, { st with video_error := "Error validating URL: " ++ e })
    | .ok r =>
      if r.scheme = "" ∨ r.netloc = "" then
        (false, { st with video_error := "Invalid URL format" })
      else if hasVideoExt url = false then
        (false, { st with video_error :=
            "URL must point to a video file (mp4, webm, ogg, mov)" })
      else (true, st)

/-- `State.set_video_url`: clears `video_error` first, validates, then
stores the URL on success and resets it to the empty string on failure. -/
def set_video_url (st : State) (url : String) : State :=
  match validate_video_url { st with video_error := "" } url with
  | (true, st2) => { st2 with video_url := url }
  | (false, st2) => { st2 with video_url := "" }

/-- Python `int()` applied to a float: truncation toward zero. -/
def pyTrunc (q : ℚ) : Int := if 0 ≤ q then ⌊q⌋ else ⌈q⌉

/-- The derived var `State.current_frame`:
`int(self.current_time * self.fps)`. -/
def current_frame (st : State) : Int :=
  pyTrunc (st.current_time * st.fps)

/-- One user-triggered event: each constructor is one of the three
state handlers together with its argument. -/
inductive Op where
  | setUrl (url : String)
  | setFps (value : String)
  | progress (p : Progress)
  deriving Repr, DecidableEq

/-- Dispatch one event to its handler. -/
def step (st : State) : Op → State
  | .setUrl url => set_video_url st url
  | .setFps value => set_fps st value
  | .progress p => update_progress st p

/-- Run a sequence of events from a state. -/
def run (st : State) (ops : List Op) : State := ops.foldl step st

/-- The decimal digit string of a natural number, most significant
digit first, prepended to an accumulator. -/
def decimalDigitsAux (n : Nat) (acc : List Char) : List Char :=
  if _h : n < 10 then Char.ofNat (48 + n % 10) :: acc
  else decimalDigitsAux (n / 10) (Char.ofNat (48 + n % 10) :: acc)
termination_by n
decreasing_by exact Nat.div_lt_self (by omega) (by omega)

/-- Python `str(n)` for a natural number. -/
def decimalString (n : Nat) : String := ⟨decimalDigitsAux n []⟩

/-- Folding step of decimal evaluation. -/
def digitStep (a : Nat) (c : Char) : Nat := a * 10 + digitVal c

/-- The digit list of `n` with an empty accumulator. -/
def decDigits (n : Nat) : List Char := decimalDigitsAux n []

/-- The overall outcome of `validate_video_url`, as a boolean on the
input alone: the URL is nonempty, parses without error with nonempty
scheme and netloc, and carries a recognised video-extension suffix. -/
def urlValid (url : String) : Bool :=
  if url = "" then false
  else
    match urlparse url with
    | .error _ => false
    | .ok r =>
      if r.scheme = "" ∨ r.netloc = "" then false
      else if hasVideoExt url = false then false
      else true

/-! ### Helper lemmas on the integer parser -/

theorem dropWhile_eq_self_of_all {p : Char → Bool} {l : List Char}
    (h : ∀ c ∈ l, p c = false) : l.dropWhile p = l := by
  cases l with
  | nil => rfl
  | cons c t =>
    simp only [List.dropWhile]
    rw [h c (List.mem_cons_self c t)]

theorem stripPy_eq_self {l : List Char}
    (h : ∀ c ∈ l, isPySpace c = false) : stripPy l = l := by
  unfold stripPy
  rw [dropWhile_eq_self_of_all h, dropWhile_eq_self_of_all, List.reverse_reverse]
  intro c hc
  exact h c (List.mem_reverse.mp hc)

theorem isPySpace_eq_false_of_isDigit {c : Char} (h : c.isDigit = true) :
    isPySpace c = false := by
  rcases Bool.eq_false_or_eq_true (isPySpace c) with hf | ht
  · exfalso
    simp only [isPySpace, Bool.or_eq_true, decide_eq_true_eq] at hf
    rcases hf with ((((h1 | h1) | h1) | h1) | h1) | h1 <;> subst h1 <;>
      exact absurd h (by decide)
  · exact ht

theorem dot_not_space : isPySpace '.' = false := by decide

theorem ne_underscore_of_isDigit {c : Char} (h : c.isDigit = true) : c ≠ '_' := by
  intro he; subst he; exact absurd h (by decide)

theorem ne_plus_of_isDigit {c : Char} (h : c.isDigit = true) : c ≠ '+' := by
  intro he; subst he; exact absurd h (by decide)

theorem ne_minus_of_isDigit {c : Char} (h : c.isDigit = true) : c ≠ '-' := by
  intro he; subst he; exact absurd h (by decide)

theorem ne_dot_of_isDigit {c : Char} (h : c.isDigit = true) : c ≠ '.' := by
  intro he; subst he; exact absurd h (by decide)

theorem digitsLoop_none_of_dot {l : List Char} :
    ∀ acc u, '.' ∈ l → digitsLoop acc u l = none := by
  induction l with
  | nil => intro _ _ h; cases h
  | cons c t ih =>
    intro acc u hm
    by_cases hc : c = '_'
    · subst hc
      have ht : '.' ∈ t := by
        rcases List.mem_cons.mp hm with h1 | h1
        · cases h1
        · exact h1
      cases u with
      | false => simp only [digitsLoop, if_pos rfl, if_neg (by decide : ¬False = True)]
                 exact ih _ _ ht
      | true => simp [digitsLoop]
    · by_cases hd : c.isDigit
      · have ht : '.' ∈ t := by
          rcases List.mem_cons.mp hm with h1 | h1
          · exact absurd h1.symm (ne_dot_of_isDigit hd)
          · exact h1
        simp only [digitsLoop, if_neg hc, if_pos hd]
        exact ih _ _ ht
      · simp [digitsLoop, hc, hd]

theorem digitsLoop_all_digits {l : List Char} :
    ∀ acc, (∀ c ∈ l, c.isDigit = true) →
      digitsLoop acc false l = some (l.foldl digitStep acc) := by
  induction l with
  | nil => intro acc _; rfl
  | cons c t ih =>
    intro acc h
    have hd : c.isDigit = true := h c (List.mem_cons_self c t)
    simp only [digitsLoop, if_neg (ne_underscore_of_isDigit hd), if_pos hd,
      List.foldl_cons]
    exact ih _ (fun x hx => h x (List.mem_cons_of_mem _ hx))

theorem parseDigitsU_all_digits {c : Char} {t : List Char}
    (hd : c.isDigit = true) (h : ∀ x ∈ t, x.isDigit = true) :
    parseDigitsU (c :: t) = some ((c :: t).foldl digitStep 0) := by
  simp only [parseDigitsU, if_pos hd, List.foldl_cons]
  have : digitStep 0 c = digitVal c := by simp [digitStep]
  rw [this]
  exact digitsLoop_all_digits _ h

/-! ### Decimal strings round-trip through the parser -/

theorem decimalDigitsAux_def (n : Nat) (acc : List Char) :
    decimalDigitsAux n acc =
      if n < 10 then Char.ofNat (48 + n % 10) :: acc
      else decimalDigitsAux (n / 10) (Char.ofNat (48 + n % 10) :: acc) := by
  rw [decimalDigitsAux.eq_def]
  by_cases h : n < 10 <;> simp [h]

theorem ofNat_digit_isDigit {m : Nat} (h : m < 10) :
    (Char.ofNat (48 + m)).isDigit = true := by
  interval_cases m <;> decide

theorem digitVal_ofNat {m : Nat} (h : m < 10) :
    digitVal (Char.ofNat (48 + m)) = m := by
  interval_cases m <;> decide

theorem decimalDigitsAux_append (n : Nat) :
    ∀ acc, decimalDigitsAux n acc = decDigits n ++ acc := by
  induction n using Nat.strong_induction_on with
  | _ n ih =>
    intro acc
    by_cases h : n < 10
    · have hR : decDigits n = [Char.ofNat (48 + n % 10)] := by
        show decimalDigitsAux n [] = _
        rw [decimalDigitsAux_def, if_pos h]
      rw [decimalDigitsAux_def, if_pos h, hR]
      rfl
    · have hlt : n / 10 < n := Nat.div_lt_self (by omega) (by omega)
      have hR : decDigits n = decDigits (n / 10) ++ [Char.ofNat (48 + n % 10)] := by
        show decimalDigitsAux n [] = _
        rw [decimalDigitsAux_def, if_neg h, ih _ hlt]
      rw [decimalDigitsAux_def, if_neg h, ih _ hlt, hR]
      simp

theorem decDigits_cons (n : Nat) (h : ¬ n < 10) :
    decDigits n = decDigits (n / 10) ++ [Char.ofNat (48 + n % 10)] := by
  rw [decDigits, decimalDigitsAux_def, if_neg h, decimalDigitsAux_append]

theorem decDigits_all_digits (n : Nat) :
    ∀ c ∈ decDigits n, c.isDigit = true := by
  induction n using Nat.strong_induction_on with
  | _ n ih =>
    by_cases h : n < 10
    · rw [decDigits, decimalDigitsAux_def, if_pos h]
      intro c hc
      rcases List.mem_cons.mp hc with h1 | h1
      · subst h1; exact ofNat_digit_isDigit (Nat.mod_lt _ (by omega))
      · cases h1
    · rw [decDigits_cons n h]
      intro c hc
      rcases List.mem_append.mp hc with h1 | h1
      · exact ih _ (Nat.div_lt_self (by omega) (by omega)) c h1
      · rcases List.mem_cons.mp h1 with h2 | h2
        · subst h2; exact ofNat_digit_isDigit (Nat.mod_lt _ (by omega))
        · cases h2

theorem decDigits_ne_nil (n : Nat) : decDigits n ≠ [] := by
  by_cases h : n < 10
  · rw [decDigits, decimalDigitsAux_def, if_pos h]
    exact List.cons_ne_nil _ _
  · rw [decDigits_cons n h]
    simp

theorem decDigits_foldl (n : Nat) :
    ∀ a : Nat, (decDigits n).foldl digitStep a =
      a * 10 ^ (decDigits n).length + n := by
  induction n using Nat.strong_induction_on with
  | _ n ih =>
    intro a
    by_cases h : n < 10
    · rw [decDigits, decimalDigitsAux_def, if_pos h]
      simp only [List.foldl_cons, List.foldl_nil, List.length_cons,
        List.length_nil, digitStep]
      rw [digitVal_ofNat (Nat.mod_lt _ (by omega))]
      have : n % 10 = n := Nat.mod_eq_of_lt h
      rw [this]
      ring
    · have hlt : n / 10 < n := Nat.div_lt_self (by omega) (by omega)
      rw [decDigits_cons n h]
      rw [List.foldl_append, List.length_append, ih _ hlt a]
      simp only [List.foldl_cons, List.foldl_nil, List.length_cons,
        List.length_nil, List.length_singleton, digitStep]
      rw [digitVal_ofNat (Nat.mod_lt _ (by omega))]
      set X := a * 10 ^ (decDigits (n / 10)).length with hX
      rw [pow_succ, ← mul_assoc, ← hX]
      omega

theorem pythonIntParse_digits {c : Char} {t : List Char}
    (hcd : c.isDigit = true) (ht : ∀ x ∈ t, x.isDigit = true) :
    pythonIntParse ⟨c :: t⟩ =
      some (((c :: t).foldl digitStep 0 : Nat) : Int) := by
  have hstrip : stripPy (c :: t) = c :: t := by
    apply stripPy_eq_self
    intro x hx
    rcases List.mem_cons.mp hx with h1 | h1
    · subst h1; exact isPySpace_eq_false_of_isDigit hcd
    · exact isPySpace_eq_false_of_isDigit (ht x h1)
  unfold pythonIntParse
  rw [show (⟨c :: t⟩ : String).data = c :: t from rfl, hstrip]
  simp only [if_neg (ne_plus_of_isDigit hcd), if_neg (ne_minus_of_isDigit hcd)]
  rw [parseDigitsU_all_digits hcd ht]
  rfl

theorem pythonIntParse_decimalString (n : Nat) :
    pythonIntParse (decimalString n) = some (n : Int) := by
  obtain ⟨c, t, hct⟩ : ∃ c t, decDigits n = c :: t := by
    cases hd : decDigits n with
    | nil => exact absurd hd (decDigits_ne_nil n)
    | cons c t => exact ⟨c, t, rfl⟩
  have hall := decDigits_all_digits n
  have hcd : c.isDigit = true := hall c (hct ▸ List.mem_cons_self c t)
  have ht : ∀ x ∈ t, x.isDigit = true := fun x hx =>
    hall x (hct ▸ List.mem_cons_of_mem c hx)
  have hfold : (c :: t).foldl digitStep 0 = n := by
    have := decDigits_foldl n 0
    rw [hct] at this
    simpa using this
  have : decimalString n = ⟨c :: t⟩ := by
    rw [decimalString, show decimalDigitsAux n [] = decDigits n from rfl, hct]
  rw [this, pythonIntParse_digits hcd ht, hfold]

/-! ### Helper lemmas on the URL handlers -/

theorem string_append_ne_empty {s : String} (t : String) (h : s.data ≠ []) :
    s ++ t ≠ "" := by
  intro he
  have hd : (s ++ t).data = s.data ++ t.data := String.data_append s t
  rw [he] at hd
  exact h (List.append_eq_nil.mp hd.symm).1

theorem validate_video_url_valid {url : String} (st : State)
    (h : urlValid url = true) : validate_video_url st url = (true, st) := by
  unfold urlValid at h
  unfold validate_video_url
  by_cases he : url = ""
  · rw [if_pos he] at h; cases h
  · rw [if_neg he] at h
    rw [if_neg he]
    cases hp : urlparse url with
    | error e => simp only [hp] at h; cases h
    | ok r =>
      simp only [hp] at h
      simp only [hp]
      by_cases h1 : r.scheme = "" ∨ r.netloc = ""
      · rw [if_pos h1] at h; cases h
      · rw [if_neg h1] at h
        rw [if_neg h1]
        by_cases h2 : hasVideoExt url = false
        · rw [if_pos h2] at h; cases h
        · rw [if_neg h2]

theorem validate_video_url_invalid {url : String} (st : State)
    (h : urlValid url = false) :
    (validate_video_url st url).1 = false ∧
    (validate_video_url st url).2.video_url = st.video_url ∧
    (validate_video_url st url).2.current_time = st.current_time ∧
    (validate_video_url st url).2.fps = st.fps ∧
    (validate_video_url st url).2.video_error ≠ "" := by
  unfold urlValid at h
  unfold validate_video_url
  by_cases he : url = ""
  · rw [if_pos he]
    exact ⟨rfl, rfl, rfl, rfl, show "Please enter a video URL" ≠ "" by decide⟩
  · rw [if_neg he] at h
    rw [if_neg he]
    cases hp : urlparse url with
    | error e =>
      simp only [hp]
      exact ⟨trivial, trivial, trivial, trivial, string_append_ne_empty e (by decide)⟩
    | ok r =>
      simp only [hp] at h
      simp only [hp]
      by_cases h1 : r.scheme = "" ∨ r.netloc = ""
      · rw [if_pos h1]
        exact ⟨rfl, rfl, rfl, rfl, show "Invalid URL format" ≠ "" by decide⟩
      · rw [if_neg h1] at h
        rw [if_neg h1]
        by_cases h2 : hasVideoExt url = false
        · rw [if_pos h2]
          exact ⟨rfl, rfl, rfl, rfl,
            show "URL must point to a video file (mp4, webm, ogg, mov)" ≠ "" by decide⟩
        · rw [if_neg h2] at h
          cases h

theorem set_video_url_valid {url : String} (st : State)
    (h : urlValid url = true) :
    set_video_url st url = { st with video_url := url, video_error := "" } := by
  unfold set_video_url
  simp only [validate_video_url_valid _ h]

theorem set_video_url_invalid {url : String} (st : State)
    (h : urlValid url = false) :
    (set_video_url st url).video_url = "" ∧
    (set_video_url st url).current_time = st.current_time ∧
    (set_video_url st url).fps = st.fps ∧
    (set_video_url st url).video_error ≠ "" := by
  obtain ⟨h1, _h2, h3, h4, h5⟩ :=
    validate_video_url_invalid { st with video_error := "" } h
  unfold set_video_url
  cases hv : validate_video_url { st with video_error := "" } url with
  | mk b st2 =>
    rw [hv] at h1 h3 h4 h5
    dsimp only at h1 h3 h4
    subst h1
    simp only [hv]
    exact ⟨trivial, h3, h4, h5⟩

/-- When the nonempty-scheme, nonempty-netloc and extension checks all
pass, the URL is valid (the converse direction used by acceptance
claims). -/
theorem urlValid_of_checks {url : String} {r : UrlParts}
    (hp : urlparse url = .ok r) (hs : r.scheme ≠ "") (hn : r.netloc ≠ "")
    (hext : hasVideoExt url = true) : urlValid url = true := by
  have he : url ≠ "" := by
    intro h0
    subst h0
    rw [show urlparse "" = Except.ok ⟨"", "", "", "", ""⟩ from rfl] at hp
    simp only [Except.ok.injEq] at hp
    subst hp
    exact hs rfl
  have h2 : ¬ (hasVideoExt url = false) := by rw [hext]; decide
  unfold urlValid
  rw [if_neg he]
  simp only [hp]
  rw [if_neg (by push_neg; exact ⟨hs, hn⟩), if_neg h2]

theorem urlValid_eq_false_of_no_ext {url : String}
    (h : hasVideoExt url = false) : urlValid url = false := by
  unfold urlValid
  by_cases he : url = ""
  · rw [if_pos he]
  · rw [if_neg he]
    cases hp : urlparse url with
    | error e => simp only [hp]
    | ok r =>
      simp only [hp]
      by_cases h1 : r.scheme = "" ∨ r.netloc = ""
      · rw [if_pos h1]
      · rw [if_neg h1, if_pos h]

/-! ### Claim theorems -/

/-- C1: for every `t ≥ 0` and natural `f > 0`, after
`update_progress {playedSeconds: t}` followed by `set_fps (str f)`, the
derived `current_frame` equals `⌊t * f⌋`. -/
theorem currentFrame_after_progress_and_fps (st : State) (t : ℚ) (f : Nat)
    (ht : 0 ≤ t) (hf : 0 < f) :
    current_frame (set_fps (update_progress st (Progress.mapWith t))
      (decimalString f)) = ⌊t * (f : ℚ)⌋ := by
  have hparse := pythonIntParse_decimalString f
  have hpos : ¬ ((f : Int) ≤ 0) := by
    have : (0 : Int) < (f : Int) := by exact_mod_cast hf
    omega
  unfold update_progress set_fps
  simp only [hparse, if_neg hpos]
  unfold current_frame pyTrunc
  have hcast : (((f : Nat) : Int) : ℚ) = (f : ℚ) := by push_cast; rfl
  have hnn : 0 ≤ t * (f : ℚ) := mul_nonneg ht (by positivity)
  simp only [hcast]
  rw [if_pos hnn]

/-- Witness for C1 at `t = 3/2`, `f = 2`: the frame index is
`⌊3/2 * 2⌋ = 3`. -/
theorem currentFrame_after_progress_and_fps_witness :
    0 ≤ (3 / 2 : ℚ) ∧ 0 < 2 ∧
    current_frame (set_fps (update_progress initialState
      (Progress.mapWith (3 / 2))) (decimalString 2)) = 3 := by
  refine ⟨by norm_num, by norm_num, ?_⟩
  have h := currentFrame_after_progress_and_fps initialState (3 / 2) 2
    (by norm_num) (by norm_num)
  rw [h]
  norm_num

/-- C2: any input whose lowercase form does not end in `.mp4`, `.webm`,
`.ogg` or `.mov` is rejected from any state: afterwards `video_url` is
empty and `video_error` nonempty. -/
theorem setVideoUrl_rejects_non_video (st : State) (url : String)
    (h : hasVideoExt url = false) :
    (set_video_url st url).video_url = "" ∧
    (set_video_url st url).video_error ≠ "" := by
  obtain ⟨a, _, _, b⟩ := set_video_url_invalid st (urlValid_eq_false_of_no_ext h)
  exact ⟨a, b⟩

/-- Witness for C2 at a URL ending in `.txt`. -/
theorem setVideoUrl_rejects_non_video_witness :
    hasVideoExt "https://example.com/clip.txt" = false ∧
    (set_video_url initialState "https://example.com/clip.txt").video_url = "" ∧
    (set_video_url initialState "https://example.com/clip.txt").video_error ≠ "" := by
  have h := setVideoUrl_rejects_non_video initialState
    "https://example.com/clip.txt" (by decide)
  exact ⟨by decide, h.1, h.2⟩

/-- C3: an input that parses with nonempty scheme and netloc and whose
lowercase form ends in a recognised video extension is stored verbatim
with the error left empty. -/
theorem setVideoUrl_accepts_video (st : State) (url : String) (r : UrlParts)
    (hp : urlparse url = .ok r) (hs : r.scheme ≠ "") (hn : r.netloc ≠ "")
    (hext : hasVideoExt url = true) :
    (set_video_url st url).video_url = url ∧
    (set_video_url st url).video_error = "" := by
  rw [set_video_url_valid st (urlValid_of_checks hp hs hn hext)]
  exact ⟨rfl, rfl⟩

/-- Witness for C3 at `https://example.com/video.mp4`. -/
theorem setVideoUrl_accepts_video_witness :
    urlparse "https://example.com/video.mp4" =
      Except.ok ⟨"https", "example.com", "/video.mp4", "", ""⟩ ∧
    (set_video_url initialState "https://example.com/video.mp4").video_url =
      "https://example.com/video.mp4" ∧
    (set_video_url initialState "https://example.com/video.mp4").video_error
      = "" := by
  have h := setVideoUrl_accepts_video initialState "https://example.com/video.mp4"
    ⟨"https", "example.com", "/video.mp4", "", ""⟩ (by rfl) (by decide)
    (by decide) (by decide)
  exact ⟨by rfl, h.1, h.2⟩

/-- C4: `set_fps` is a total function (no exception escapes); a
non-parsing input leaves `fps` unchanged with the "valid number" error,
a non-positive parse leaves `fps` unchanged with the "greater than 0"
error, and a positive parse stores the value and clears the error. -/
theorem setFps_spec (st : State) (v : String) :
    (pythonIntParse v = none →
      (set_fps st v).fps = st.fps ∧
      (set_fps st v).video_error = "FPS must be a valid number") ∧
    (∀ n : Int, pythonIntParse v = some n → n ≤ 0 →
      (set_fps st v).fps = st.fps ∧
      (set_fps st v).video_error = "FPS must be greater than 0") ∧
    (∀ n : Int, pythonIntParse v = some n → 0 < n →
      (set_fps st v).fps = n ∧ (set_fps st v).video_error = "") := by
  refine ⟨fun h => ?_, fun n h hn => ?_, fun n h hn => ?_⟩ <;> unfold set_fps
  · simp [h]
  · simp [h, hn]
  · have hgt : ¬ n ≤ 0 := by omega
    simp [h, hgt]

/-- Witness for C4 at `"abc"`, `"0"`, `"-3"` and `"24"`. -/
theorem setFps_spec_witness :
    (set_fps initialState "abc").fps = 60 ∧
    (set_fps initialState "abc").video_error = "FPS must be a valid number" ∧
    (set_fps initialState "0").fps = 60 ∧
    (set_fps initialState "0").video_error = "FPS must be greater than 0" ∧
    (set_fps initialState "-3").fps = 60 ∧
    (set_fps initialState "-3").video_error = "FPS must be greater than 0" ∧
    (set_fps initialState "24").fps = 24 ∧
    (set_fps initialState "24").video_error = "" := by
  have ha := (setFps_spec initialState "abc").1 (by decide)
  have h0 := (setFps_spec initialState "0").2.1 0 (by decide) (by decide)
  have hm := (setFps_spec initialState "-3").2.1 (-3) (by decide) (by decide)
  have hq := (setFps_spec initialState "24").2.2 24 (by decide) (by decide)
  exact ⟨ha.1, ha.2, h0.1, h0.2, hm.1, hm.2, hq.1, hq.2⟩

theorem set_fps_fields (st : State) (v : String) :
    (set_fps st v).current_time = st.current_time ∧
    (set_fps st v).video_url = st.video_url := by
  unfold set_fps
  cases h : pythonIntParse v with
  | none => simp
  | some n => by_cases hn : n ≤ 0 <;> simp [hn]

theorem set_video_url_fields (st : State) (url : String) :
    (set_video_url st url).current_time = st.current_time ∧
    (set_video_url st url).fps = st.fps := by
  cases hv : urlValid url with
  | false =>
    obtain ⟨_, h2, h3, _⟩ := set_video_url_invalid st hv
    exact ⟨h2, h3⟩
  | true =>
    rw [set_video_url_valid st hv]
    exact ⟨rfl, rfl⟩

theorem url_ne_empty_of_scheme {url : String} {r : UrlParts}
    (hp : urlparse url = .ok r) (hs : r.scheme ≠ "") : url ≠ "" := by
  intro h0
  subst h0
  rw [show urlparse "" = Except.ok ⟨"", "", "", "", ""⟩ from rfl] at hp
  simp only [Except.ok.injEq] at hp
  subst hp
  exact hs rfl

/-- C5 fails on the code: `update_progress` never clears `video_error`,
so a stale error survives a perfectly valid progress update — errors do
persist past a corrected input to that handler. -/
theorem updateProgress_keeps_stale_error :
    (update_progress
      { video_url := "", video_error := "stale", current_time := 0, fps := 60 }
      (Progress.mapWith 1)).video_error ≠ "" := by decide

/-- C5 amended: `set_video_url` clears `video_error` before validating
and `set_fps` clears it on a valid input, so a corrected URL or fps
input does erase a prior error; `update_progress`, however, never
touches `video_error` on success, so a prior error persists past a
corrected progress input. -/
theorem error_clearing_amended (st : State) (url v : String) (t : ℚ) :
    (urlValid url = true → (set_video_url st url).video_error = "") ∧
    (∀ n : Int, pythonIntParse v = some n → 0 < n →
      (set_fps st v).video_error = "") ∧
    (update_progress st (Progress.mapWith t)).video_error = st.video_error := by
  refine ⟨fun h => ?_, fun n h hn => ?_, rfl⟩
  · rw [set_video_url_valid st h]
  · have hgt : ¬ n ≤ 0 := by omega
    unfold set_fps
    simp [h, hgt]

/-- Witness for the amended C5 at a state carrying a stale error. -/
theorem error_clearing_amended_witness :
    (set_video_url
      { video_url := "", video_error := "stale", current_time := 0, fps := 60 }
      "https://example.com/video.mp4").video_error = "" ∧
    (set_fps
      { video_url := "", video_error := "stale", current_time := 0, fps := 60 }
      "24").video_error = "" ∧
    (update_progress
      { video_url := "", video_error := "stale", current_time := 0, fps := 60 }
      (Progress.mapWith 1)).video_error = "stale" := by
  have h := error_clearing_amended
    { video_url := "", video_error := "stale", current_time := 0, fps := 60 }
    "https://example.com/video.mp4" "24" 1
  exact ⟨h.1 (by decide), h.2.1 24 (by decide) (by decide), h.2.2⟩

/-- C6: `update_progress` stores a numeric `playedSeconds` into
`current_time`; a dict lacking the key or a non-dict argument is
absorbed (the handler is a total function: the caught `KeyError` or
`TypeError` never escapes), leaves `current_time` unchanged, and sets a
nonempty descriptive error. -/
theorem updateProgress_spec (st : State) :
    (∀ t : ℚ, (update_progress st (Progress.mapWith t)).current_time = t) ∧
    ((update_progress st Progress.mapWithout).current_time = st.current_time ∧
      (update_progress st Progress.mapWithout).video_error ≠ "") ∧
    (∀ msg : String,
      (update_progress st (Progress.notMap msg)).current_time
          = st.current_time ∧
      (update_progress st (Progress.notMap msg)).video_error ≠ "") := by
  refine ⟨fun t => rfl, ⟨rfl, ?_⟩, fun msg => ⟨rfl, ?_⟩⟩
  · show "Error updating video progress: " ++ "'playedSeconds'" ≠ ""
    decide
  · exact string_append_ne_empty msg (by decide)

/-- C7 fails on the code: a failing `set_video_url` does not leave the
previously stored URL intact — it resets `video_url` to the empty
string. -/
theorem setVideoUrl_clobbers_stored_url :
    (set_video_url
      { video_url := "https://example.com/a.mp4", video_error := "",
        current_time := 0, fps := 60 } "not a url").video_url
      ≠ "https://example.com/a.mp4" := by decide

/-- C7 amended: a failing `set_fps` or `update_progress` changes only
`video_error`; a failing `set_video_url` preserves `current_time` and
`fps` but resets `video_url` to the empty string instead of keeping the
previously stored URL. -/
theorem failure_frame_amended (st : State) (url v : String) :
    (urlValid url = false →
      (set_video_url st url).current_time = st.current_time ∧
      (set_video_url st url).fps = st.fps ∧
      (set_video_url st url).video_url = "") ∧
    (pythonIntParse v = none →
      (set_fps st v).video_url = st.video_url ∧
      (set_fps st v).current_time = st.current_time ∧
      (set_fps st v).fps = st.fps) ∧
    (∀ n : Int, pythonIntParse v = some n → n ≤ 0 →
      (set_fps st v).video_url = st.video_url ∧
      (set_fps st v).current_time = st.current_time ∧
      (set_fps st v).fps = st.fps) ∧
    ((update_progress st Progress.mapWithout).video_url = st.video_url ∧
      (update_progress st Progress.mapWithout).current_time
          = st.current_time ∧
      (update_progress st Progress.mapWithout).fps = st.fps) ∧
    (∀ msg : String,
      (update_progress st (Progress.notMap msg)).video_url = st.video_url ∧
      (update_progress st (Progress.notMap msg)).current_time
          = st.current_time ∧
      (update_progress st (Progress.notMap msg)).fps = st.fps) := by
  refine ⟨fun h => ?_, fun h => ?_, fun n h hn => ?_,
    ⟨rfl, rfl, rfl⟩, fun msg => ⟨rfl, rfl, rfl⟩⟩
  · obtain ⟨h1, h2, h3, _⟩ := set_video_url_invalid st h
    exact ⟨h2, h3, h1⟩
  · unfold set_fps
    simp [h]
  · unfold set_fps
    simp [h, hn]

/-- Witness for the amended C7 on failing inputs `"not a url"`, `"abc"`
and `"0"` from a populated state. -/
theorem failure_frame_amended_witness :
    (set_video_url
      { video_url := "https://example.com/a.mp4", video_error := "",
        current_time := 2, fps := 30 } "not a url").current_time = 2 ∧
    (set_video_url
      { video_url := "https://example.com/a.mp4", video_error := "",
        current_time := 2, fps := 30 } "not a url").fps = 30 ∧
    (set_video_url
      { video_url := "https://example.com/a.mp4", video_error := "",
        current_time := 2, fps := 30 } "not a url").video_url = "" ∧
    (set_fps
      { video_url := "https://example.com/a.mp4", video_error := "",
        current_time := 2, fps := 30 } "abc").fps = 30 ∧
    (set_fps
      { video_url := "https://example.com/a.mp4", video_error := "",
        current_time := 2, fps := 30 } "0").fps = 30 := by
  have h1 := failure_frame_amended
    { video_url := "https://example.com/a.mp4", video_error := "",
      current_time := 2, fps := 30 } "not a url" "abc"
  have h2 := failure_frame_amended
    { video_url := "https://example.com/a.mp4", video_error := "",
      current_time := 2, fps := 30 } "not a url" "0"
  obtain ⟨u1, u2, u3⟩ := h1.1 (by decide)
  exact ⟨u1, u2, u3, (h1.2.1 (by decide)).2.2, (h2.2.2.1 0 (by decide) (by decide)).2.2⟩

/-- C8 fails on the code: a progress event with negative `playedSeconds`
drives `current_time` below zero in one step from the initial state —
nothing clamps or rejects negative values. -/
theorem negative_time_reachable :
    (run initialState [Op.progress (Progress.mapWith (-5))]).current_time
      < 0 := by
  show (-5 : ℚ) < 0
  norm_num

/-- C8 amended: `current_time ≥ 0` holds in every state reachable from
the initial state when every progress event in the sequence carries a
nonnegative `playedSeconds`. -/
theorem time_nonneg_of_nonneg_progress (ops : List Op)
    (h : ∀ op ∈ ops, ∀ t : ℚ, op = Op.progress (Progress.mapWith t) → 0 ≤ t) :
    0 ≤ (run initialState ops).current_time := by
  have main : ∀ (l : List Op) (st : State),
      (∀ op ∈ l, ∀ t : ℚ, op = Op.progress (Progress.mapWith t) → 0 ≤ t) →
      0 ≤ st.current_time → 0 ≤ (run st l).current_time := by
    intro l
    induction l with
    | nil => intro st _ h0; exact h0
    | cons op rest ih =>
      intro st hl h0
      have hstep : 0 ≤ (step st op).current_time := by
        cases op with
        | setUrl u =>
          show 0 ≤ (set_video_url st u).current_time
          rw [(set_video_url_fields st u).1]
          exact h0
        | setFps v =>
          show 0 ≤ (set_fps st v).current_time
          rw [(set_fps_fields st v).1]
          exact h0
        | progress p =>
          cases p with
          | mapWith t =>
            exact hl (Op.progress (Progress.mapWith t))
              (List.mem_cons_self _ _) t rfl
          | mapWithout => exact h0
          | notMap msg => exact h0
      exact ih (step st op)
        (fun o ho t het => hl o (List.mem_cons_of_mem _ ho) t het) hstep
  exact main ops initialState h (le_refl 0)

/-- Witness for the amended C8 on a three-event run whose progress event
is nonnegative. -/
theorem time_nonneg_of_nonneg_progress_witness :
    0 ≤ (run initialState
      [Op.setFps "24", Op.progress (Progress.mapWith 2),
        Op.setUrl "https://example.com/video.mp4"]).current_time := by
  apply time_nonneg_of_nonneg_progress
  intro op ho t het
  fin_cases ho
  · exact Op.noConfusion het
  · have h1 : Progress.mapWith (2 : ℚ) = Progress.mapWith t := by
      injection het
    have h2 : (2 : ℚ) = t := by injection h1
    rw [← h2]
    norm_num
  · exact Op.noConfusion het

/-- C9 fails as universally stated: a URL whose path ends in `.mp4` and
whose query is nonempty is still accepted when the query itself also
ends in `.mp4`, because the suffix check runs on the whole string. -/
theorem query_suffix_url_accepted :
    urlparse "https://example.com/v.mp4?x=.mp4" =
      Except.ok ⟨"https", "example.com", "/v.mp4", "x=.mp4", ""⟩ ∧
    hasVideoExt "/v.mp4" = true ∧
    ("x=.mp4" : String) ≠ "" ∧
    (set_video_url initialState "https://example.com/v.mp4?x=.mp4").video_url
      = "https://example.com/v.mp4?x=.mp4" ∧
    (set_video_url initialState
      "https://example.com/v.mp4?x=.mp4").video_error = "" := by
  exact ⟨by rfl, by decide, by decide, by decide, by decide⟩

/-- C9 amended: the extension check is a suffix match on the entire URL
string, not on the path: a URL with nonempty scheme and netloc whose
path ends in a video extension is rejected with the video-file error
whenever the whole string does not end in one (as with a trailing
query such as `?t=5`); a trailing query or fragment that itself ends in
a video extension makes the whole string pass instead. -/
theorem suffix_check_on_whole_url (st : State) (url : String) (r : UrlParts)
    (hp : urlparse url = .ok r) (hs : r.scheme ≠ "") (hn : r.netloc ≠ "")
    (_hpath : hasVideoExt r.path = true)
    (_hq : r.query ≠ "" ∨ r.fragment ≠ "")
    (hurl : hasVideoExt url = false) :
    (set_video_url st url).video_url = "" ∧
    (set_video_url st url).video_error =
      "URL must point to a video file (mp4, webm, ogg, mov)" := by
  have he := url_ne_empty_of_scheme hp hs
  unfold set_video_url validate_video_url
  rw [if_neg he]
  simp only [hp]
  rw [if_neg (by push_neg; exact ⟨hs, hn⟩), if_pos hurl]
  exact ⟨rfl, rfl⟩

/-- Witness for the amended C9 at `https://example.com/v.mp4?t=5`. -/
theorem suffix_check_on_whole_url_witness :
    (set_video_url initialState "https://example.com/v.mp4?t=5").video_url
      = "" ∧
    (set_video_url initialState "https://example.com/v.mp4?t=5").video_error
      = "URL must point to a video file (mp4, webm, ogg, mov)" := by
  exact suffix_check_on_whole_url initialState "https://example.com/v.mp4?t=5"
    ⟨"https", "example.com", "/v.mp4", "t=5", ""⟩ (by rfl) (by decide)
    (by decide) (by decide) (Or.inl (by decide)) (by decide)

/-- C10: `int()` uses strict integer syntax, so any digits-dot-digits
input (even one denoting a whole number, like `60.0`) is rejected by
`set_fps` with the "valid number" error and `fps` unchanged. -/
theorem setFps_rejects_decimal_point (st : State) (a b : List Char)
    (ha : a ≠ []) (_hb : b ≠ []) (hda : ∀ c ∈ a, c.isDigit = true)
    (hdb : ∀ c ∈ b, c.isDigit = true) :
    (set_fps st ⟨a ++ '.' :: b⟩).fps = st.fps ∧
    (set_fps st ⟨a ++ '.' :: b⟩).video_error = "FPS must be a valid number" := by
  have hparse : pythonIntParse ⟨a ++ '.' :: b⟩ = none := by
    have hns : ∀ c ∈ a ++ '.' :: b, isPySpace c = false := by
      intro c hc
      rcases List.mem_append.mp hc with h1 | h1
      · exact isPySpace_eq_false_of_isDigit (hda c h1)
      · rcases List.mem_cons.mp h1 with h2 | h2
        · subst h2; decide
        · exact isPySpace_eq_false_of_isDigit (hdb c h2)
    obtain ⟨c, t, hct⟩ : ∃ c t, a = c :: t := by
      cases a with
      | nil => exact absurd rfl ha
      | cons c t => exact ⟨c, t, rfl⟩
    subst hct
    have hcd : c.isDigit = true := hda c (List.mem_cons_self _ _)
    have hmem : '.' ∈ t ++ '.' :: b :=
      List.mem_append.mpr (Or.inr (List.mem_cons_self _ _))
    unfold pythonIntParse
    rw [show (⟨(c :: t) ++ '.' :: b⟩ : String).data = c :: (t ++ '.' :: b)
        from rfl]
    rw [stripPy_eq_self (l := c :: (t ++ '.' :: b)) (fun x hx => hns x hx)]
    simp only [if_neg (ne_plus_of_isDigit hcd), if_neg (ne_minus_of_isDigit hcd)]
    simp only [parseDigitsU, if_pos hcd]
    rw [digitsLoop_none_of_dot _ _ hmem]
    rfl
  unfold set_fps
  simp [hparse]

/-- Witness for C10 at the input `"30.5"`. -/
theorem setFps_rejects_decimal_point_witness :
    (set_fps initialState "30.5").fps = 60 ∧
    (set_fps initialState "30.5").video_error = "FPS must be a valid number" := by
  have h := setFps_rejects_decimal_point initialState ['3', '0'] ['5']
    (by decide) (by decide) (by decide) (by decide)
  have he : ("30.5" : String) = ⟨['3', '0'] ++ '.' :: ['5']⟩ := by rfl
  rw [he]
  exact ⟨h.1, h.2⟩

end VideoState
